import Mathlib

/-!
Verification of the lottery-number generator in `src/app.py`
(`is_valid` and `generate_lotto_numbers`), shallowly embedded in Lean.

Numbers are modelled as `Nat` (the program only ever handles integers in
`[1, 45]`), `count` as `Int` (a Python `int` that may be non-positive),
combinations as `List Nat` and the result set as `List (List Nat)`.

The call `random.sample(candidates_pool, remaining_count)` is modelled by an
oracle `draws : Nat → List Nat` indexed by the remaining trial budget at the
moment of the draw; the predicate `DrawsOk` captures exactly the guarantee of
`random.sample`: the returned list has the requested length, has no
duplicates, and all its members come from the population it sampled.

The `while` loop of `generate_lotto_numbers` is driven by the Python variable
`trials_limit`, which strictly decreases on every iteration; the embedding
`genLoopFull` therefore recurses on that very variable as fuel, and also
returns its final value so that the number of consumed attempts is observable.
-/

/-- Embedding of the odd/even test of `is_valid` (src/app.py lines 11-15):
count the odd members, set `even = 6 - odd`, and require `odd == 3 and
even == 3`. -/
def oddEvenCheck (ns : List Nat) : Bool :=
  let odd := ns.countP (fun n => n % 2 == 1)
  let even := 6 - odd
  odd == 3 && even == 3

/-- Embedding of the consecutive-run scan of `is_valid` (src/app.py lines
18-26): `p` is the previous element, `c` the running-consecutive counter;
the scan reports failure as soon as the counter reaches 3. -/
def consecFailAux : Nat → Nat → List Nat → Bool
  | _, _, [] => false
  | p, c, x :: rest =>
    if x = p + 1 then
      if c + 1 ≥ 3 then true
      else consecFailAux x (c + 1) rest
    else consecFailAux x 1 rest

/-- The consecutive-run scan started as in the Python code: the counter is 1
and the iteration begins at the second element. -/
def consecFail : List Nat → Bool
  | [] => false
  | x :: rest => consecFailAux x 1 rest

/-- Embedding of `is_valid(numbers, use_odd_even_rule, use_consecutive_rule)`
(src/app.py lines 7-28): the input is sorted first, then each enabled rule
may reject it. -/
def is_valid (numbers : List Nat)
    (use_odd_even_rule use_consecutive_rule : Bool) : Bool :=
  let ns := List.insertionSort (· ≤ ·) numbers
  if use_odd_even_rule && !(oddEvenCheck ns) then false
  else if use_consecutive_rule && consecFail ns then false
  else true

/-- Embedding of `available = [n for n in range(1, 46) if n not in
excluded_numbers]` (src/app.py line 56). -/
def available_pool (excluded_numbers : List Nat) : List Nat :=
  (List.range' 1 45).filter (fun n => !(excluded_numbers.contains n))

/-- Embedding of `candidates_pool = [n for n in available if n not in
fixed_numbers]` (src/app.py line 68). -/
def candidatesPool (fixed_numbers excluded_numbers : List Nat) : List Nat :=
  (available_pool excluded_numbers).filter (fun n => !(fixed_numbers.contains n))

/-- Embedding of the `while` loop of `generate_lotto_numbers` (src/app.py
lines 52-78). The fuel is the Python variable `trials_limit`; the function
returns the accumulated `results` together with the final value of
`trials_limit`. Each iteration: decrement the budget, build the available
pool, break if more than 6 fixed numbers, skip if the remaining count is
negative or the candidate pool is too small, otherwise draw, sort, validate
and append when new. -/
def genLoopFull (count : Int) (use_odd_even_rule use_consecutive_rule : Bool)
    (fixed_numbers excluded_numbers : List Nat) (draws : Nat → List Nat) :
    Nat → List (List Nat) → List (List Nat) × Nat
  | 0, results => (results, 0)
  | t + 1, results =>
    if (results.length : Int) < count then
      let available := available_pool excluded_numbers
      if 6 < fixed_numbers.length then (results, t)
      else
        let remaining_count : Int := 6 - (fixed_numbers.length : Int)
        if remaining_count < 0 then
          genLoopFull count use_odd_even_rule use_consecutive_rule
            fixed_numbers excluded_numbers draws t results
        else
          let candidates_pool := available.filter (fun n => !(fixed_numbers.contains n))
          if (candidates_pool.length : Int) < remaining_count then
            genLoopFull count use_odd_even_rule use_consecutive_rule
              fixed_numbers excluded_numbers draws t results
          else
            let random_part := draws t
            let nums := List.insertionSort (· ≤ ·) (fixed_numbers ++ random_part)
            if is_valid nums use_odd_even_rule use_consecutive_rule
                && !(results.contains nums) then
              genLoopFull count use_odd_even_rule use_consecutive_rule
                fixed_numbers excluded_numbers draws t (results ++ [nums])
            else
              genLoopFull count use_odd_even_rule use_consecutive_rule
                fixed_numbers excluded_numbers draws t results
    else (results, t + 1)

/-- Embedding of `generate_lotto_numbers` (src/app.py lines 31-80): run the
loop with the initial budget `trials_limit = 10000` and empty `results`. -/
def generate_lotto_numbers (count : Int)
    (use_odd_even_rule use_consecutive_rule : Bool)
    (fixed_numbers excluded_numbers : List Nat)
    (draws : Nat → List Nat) : List (List Nat) :=
  (genLoopFull count use_odd_even_rule use_consecutive_rule
    fixed_numbers excluded_numbers draws 10000 []).1

/-- Number of loop iterations (attempts) consumed by a run of
`generate_lotto_numbers`: the initial budget minus the final value of
`trials_limit`. -/
def generateAttempts (count : Int)
    (use_odd_even_rule use_consecutive_rule : Bool)
    (fixed_numbers excluded_numbers : List Nat)
    (draws : Nat → List Nat) : Nat :=
  10000 - (genLoopFull count use_odd_even_rule use_consecutive_rule
    fixed_numbers excluded_numbers draws 10000 []).2

/-- Semantics of `random.sample(candidates_pool, remaining_count)`
(src/app.py line 73): every draw the oracle can deliver has exactly
`6 - len(fixed_numbers)` members, no duplicates, and all members taken from
the candidate pool. -/
def DrawsOk (fixed_numbers excluded_numbers : List Nat)
    (draws : Nat → List Nat) : Prop :=
  ∀ t, (draws t).Nodup ∧
    (draws t).length = 6 - fixed_numbers.length ∧
    ∀ x ∈ draws t, x ∈ candidatesPool fixed_numbers excluded_numbers

/-- Number of odd members of a combination (spec language for the odd/even
balance rule). -/
def oddCount (c : List Nat) : Nat :=
  c.countP (fun n => n % 2 == 1)

/-- Spec language for the consecutive-run rule: three members of `c` form a
run of consecutive integers. -/
def hasRun3 (c : List Nat) : Prop :=
  ∃ x, x ∈ c ∧ x + 1 ∈ c ∧ x + 2 ∈ c

/-- Two combinations are identical as sets of numbers. -/
def sameSet (a b : List Nat) : Prop :=
  ∀ x : Nat, x ∈ a ↔ x ∈ b

/-- The result-set invariant of the spec: every accumulated combination is
strictly ascending, no two are identical as sets, and the length never
exceeds the requested count. -/
def resultInv (count : Int) (rs : List (List Nat)) : Prop :=
  (∀ a ∈ rs, List.Sorted (· < ·) a) ∧
  rs.Pairwise (fun a b => ¬ sameSet a b) ∧
  (rs.length : Int) ≤ count

/-- Adjacent-triple characterisation of the consecutive-run scan: some
element is immediately followed by its two successors. -/
def hasAdjRun : List Nat → Bool
  | a :: b :: c :: rest => (b == a + 1 && c == b + 1) || hasAdjRun (b :: c :: rest)
  | _ => false

/-- Head test used to describe the scan state in which the previous pair of
elements was consecutive. -/
def headEq (v : Nat) : List Nat → Bool
  | [] => false
  | x :: _ => x == v

theorem consecFailAux_spec (l : List Nat) :
    ∀ p : Nat, consecFailAux p 1 l = hasAdjRun (p :: l) ∧
      consecFailAux p 2 l = (headEq (p + 1) l || hasAdjRun (p :: l)) := by
  induction l with
  | nil => intro p; simp [consecFailAux, hasAdjRun, headEq]
  | cons x rest ih =>
    intro p
    constructor
    · by_cases hx : x = p + 1
      · subst hx
        have h2 := (ih (p + 1)).2
        have hstep : consecFailAux p 1 ((p + 1) :: rest) = consecFailAux (p + 1) 2 rest := by
          simp [consecFailAux]
        rw [hstep, h2]
        cases rest with
        | nil => simp [hasAdjRun, headEq]
        | cons y r2 => simp [hasAdjRun, headEq]
      · have h1 := (ih x).1
        have hstep : consecFailAux p 1 (x :: rest) = consecFailAux x 1 rest := by
          simp [consecFailAux, hx]
        rw [hstep, h1]
        have hb : (x == p + 1) = false := by simp [hx]
        cases rest with
        | nil => simp [hasAdjRun]
        | cons y r2 => simp [hasAdjRun, hb]
    · by_cases hx : x = p + 1
      · subst hx
        have hstep : consecFailAux p 2 ((p + 1) :: rest) = true := by
          simp [consecFailAux]
        rw [hstep]
        simp [headEq]
      · have h1 := (ih x).1
        have hstep : consecFailAux p 2 (x :: rest) = consecFailAux x 1 rest := by
          simp [consecFailAux, hx]
        rw [hstep, h1]
        have hb : (x == p + 1) = false := by simp [hx]
        cases rest with
        | nil => simp [hasAdjRun, headEq, hb]
        | cons y r2 => simp [hasAdjRun, headEq, hb]

theorem consecFail_eq_hasAdjRun (l : List Nat) : consecFail l = hasAdjRun l := by
  cases l with
  | nil => rfl
  | cons x rest => exact (consecFailAux_spec rest x).1

theorem hasAdjRun_iff_hasRun3 (l : List Nat) (hs : List.Sorted (· < ·) l) :
    hasAdjRun l = true ↔ hasRun3 l := by
  induction l with
  | nil => simp [hasAdjRun, hasRun3]
  | cons a tl ih =>
    rcases List.sorted_cons.mp hs with ⟨ha, hstl⟩
    cases tl with
    | nil =>
      simp only [hasAdjRun, hasRun3]
      constructor
      · intro h; exact absurd h (by simp)
      · rintro ⟨x, hx, hx1, hx2⟩
        simp only [List.mem_singleton] at hx hx1
        omega
    | cons b tl2 =>
      cases tl2 with
      | nil =>
        simp only [hasAdjRun, hasRun3]
        constructor
        · intro h; exact absurd h (by simp)
        · rintro ⟨x, hx, hx1, hx2⟩
          simp only [List.mem_cons, List.mem_singleton, List.not_mem_nil, or_false] at hx hx1 hx2
          omega
      | cons c rest =>
        have hab : a < b := ha b (by simp)
        rcases List.sorted_cons.mp hstl with ⟨hb, hstl2⟩
        have hbc : b < c := hb c (by simp)
        rcases List.sorted_cons.mp hstl2 with ⟨hc, _⟩
        constructor
        · intro h
          simp only [hasAdjRun, Bool.or_eq_true, Bool.and_eq_true, beq_iff_eq] at h
          rcases h with ⟨h1, h2⟩ | h
          · exact ⟨a, by simp, by simp [h1], by simp; omega⟩
          · rcases (ih hstl).mp h with ⟨x, hx, hx1, hx2⟩
            exact ⟨x, List.mem_cons_of_mem a hx, List.mem_cons_of_mem a hx1,
              List.mem_cons_of_mem a hx2⟩
        · rintro ⟨x, hx, hx1, hx2⟩
          rcases List.mem_cons.mp hx with rfl | hx
          · have hb1 : b = x + 1 := by
              rcases List.mem_cons.mp hx1 with h | h
              · omega
              · rcases List.mem_cons.mp h with h' | h'
                · omega
                · have := hb _ h'; omega
            have hc2 : c = x + 2 := by
              rcases List.mem_cons.mp hx2 with h | h
              · omega
              · rcases List.mem_cons.mp h with h' | h'
                · omega
                · rcases List.mem_cons.mp h' with h'' | h''
                  · omega
                  · have := hc _ h''; omega
            simp [hasAdjRun, hb1, hc2]
          · have hx1' : x + 1 ∈ b :: c :: rest := by
              rcases List.mem_cons.mp hx1 with h | h
              · have := ha _ hx; omega
              · exact h
            have hx2' : x + 2 ∈ b :: c :: rest := by
              rcases List.mem_cons.mp hx2 with h | h
              · have := ha _ hx; omega
              · exact h
            have : hasAdjRun (b :: c :: rest) = true :=
              (ih hstl).mpr ⟨x, hx, hx1', hx2'⟩
            simp [hasAdjRun, this]

theorem oddEvenCheck_iff (ns : List Nat) :
    oddEvenCheck ns = true ↔ oddCount ns = 3 := by
  simp only [oddEvenCheck, oddCount, Bool.and_eq_true, beq_iff_eq]
  omega

theorem consecFail_iff (l : List Nat) (hs : List.Sorted (· < ·) l) :
    consecFail l = true ↔ hasRun3 l := by
  rw [consecFail_eq_hasAdjRun]
  exact hasAdjRun_iff_hasRun3 l hs

/-- C3: for every sorted-ascending list of 6 distinct numbers in [1,45] and
flags, `is_valid` accepts iff (the odd/even flag is off or exactly 3 members
are odd) and (the no-run flag is off or no 3 members form a run of
consecutive integers); each disabled flag removes its constraint. -/
theorem is_valid_spec_characterisation (c : List Nat) (oe nr : Bool)
    (hs : List.Sorted (· < ·) c) (hlen : c.length = 6)
    (hr : ∀ x ∈ c, 1 ≤ x ∧ x ≤ 45) :
    is_valid c oe nr = true ↔
      ((oe = false ∨ oddCount c = 3) ∧ (nr = false ∨ ¬ hasRun3 c)) := by
  have hle : List.Sorted (· ≤ ·) c := hs.le_of_lt
  have heq : List.insertionSort (· ≤ ·) c = c := hle.insertionSort_eq
  simp only [is_valid, heq]
  rcases hoe : oddEvenCheck c <;> rcases hcf : consecFail c <;>
    cases oe <;> cases nr <;>
      simp_all [← oddEvenCheck_iff, ← consecFail_iff c hs]

/-- Witness for C3 at a concrete sorted combination. -/
theorem is_valid_spec_characterisation_witness :
    is_valid [2, 3, 8, 15, 22, 41] true true = true ↔
      ((true = false ∨ oddCount [2, 3, 8, 15, 22, 41] = 3) ∧
        (true = false ∨ ¬ hasRun3 [2, 3, 8, 15, 22, 41])) :=
  is_valid_spec_characterisation [2, 3, 8, 15, 22, 41] true true
    (by decide) (by decide) (by decide)

/-- C9: `is_valid` is insensitive to the order of its 6-element input, since
it sorts the input internally. -/
theorem is_valid_perm_invariant (l l' : List Nat) (oe nr : Bool)
    (hlen : l.length = 6) (hperm : l.Perm l') :
    is_valid l oe nr = is_valid l' oe nr := by
  have hsort : List.insertionSort (· ≤ ·) l = List.insertionSort (· ≤ ·) l' :=
    List.eq_of_perm_of_sorted
      ((List.perm_insertionSort _ l).trans (hperm.trans (List.perm_insertionSort _ l').symm))
      (List.sorted_insertionSort _ l) (List.sorted_insertionSort _ l')
  simp only [is_valid, hsort]

/-- Witness for C9 on a concrete permutation pair. -/
theorem is_valid_perm_invariant_witness :
    is_valid [1, 2, 3, 4, 5, 6] true true = is_valid [6, 5, 4, 3, 2, 1] true true :=
  is_valid_perm_invariant [1, 2, 3, 4, 5, 6] [6, 5, 4, 3, 2, 1] true true
    (by decide) (by decide)

theorem candidatesPool_subset (fixed excl : List Nat) (x : Nat)
    (hx : x ∈ candidatesPool fixed excl) :
    (1 ≤ x ∧ x ≤ 45) ∧ x ∉ excl ∧ x ∉ fixed := by
  simp only [candidatesPool, available_pool, List.mem_filter,
    List.mem_range'_1] at hx
  rcases hx with ⟨⟨hr, hne⟩, hnf⟩
  simp at hne hnf
  exact ⟨⟨hr.1, by omega⟩, hne, hnf⟩

theorem combo_props (fixed excl d : List Nat)
    (hnd : fixed.Nodup) (hd : d.Nodup)
    (hsub : ∀ x ∈ d, x ∈ candidatesPool fixed excl) :
    List.Sorted (· < ·) (List.insertionSort (· ≤ ·) (fixed ++ d)) ∧
    (List.insertionSort (· ≤ ·) (fixed ++ d)).length = fixed.length + d.length ∧
    ∀ x : Nat, x ∈ List.insertionSort (· ≤ ·) (fixed ++ d) ↔ x ∈ fixed ∨ x ∈ d := by
  have hperm := List.perm_insertionSort (· ≤ ·) (fixed ++ d)
  have hdisj : fixed.Disjoint d := by
    intro x hxf hxd
    exact (candidatesPool_subset fixed excl x (hsub x hxd)).2.2 hxf
  have hnodup : (fixed ++ d).Nodup := List.nodup_append.mpr ⟨hnd, hd, hdisj⟩
  have hnodup' : (List.insertionSort (· ≤ ·) (fixed ++ d)).Nodup :=
    hperm.symm.nodup hnodup
  have hsle : List.Sorted (· ≤ ·) (List.insertionSort (· ≤ ·) (fixed ++ d)) :=
    List.sorted_insertionSort _ _
  refine ⟨?_, ?_, ?_⟩
  · exact (hsle.and hnodup').imp (fun h => lt_of_le_of_ne h.1 h.2)
  · rw [hperm.length_eq, List.length_append]
  · intro x
    rw [hperm.mem_iff, List.mem_append]

theorem mem_genLoopFull (count : Int) (oe nr : Bool) (fixed excl : List Nat)
    (draws : Nat → List Nat) :
    ∀ (fuel : Nat) (rs : List (List Nat)) (c : List Nat),
      c ∈ (genLoopFull count oe nr fixed excl draws fuel rs).1 →
      c ∈ rs ∨ ∃ t, fixed.length ≤ 6 ∧
        6 - (fixed.length : Int) ≤ ((candidatesPool fixed excl).length : Int) ∧
        c = List.insertionSort (· ≤ ·) (fixed ++ draws t) := by
  intro fuel
  induction fuel with
  | zero => intro rs c hc; exact Or.inl hc
  | succ t ih =>
    intro rs c hc
    simp only [genLoopFull] at hc
    split at hc
    · split at hc
      · exact Or.inl hc
      · split at hc
        · exact ih rs c hc
        · split at hc
          · exact ih rs c hc
          · rename_i h1 h2 h3 h4
            split at hc
            · rcases ih _ c hc with hin | hex
              · rcases List.mem_append.mp hin with hin | hin
                · exact Or.inl hin
                · right
                  refine ⟨t, by omega, ?_, by simpa using hin⟩
                  have : candidatesPool fixed excl =
                      (available_pool excl).filter (fun n => !(fixed.contains n)) := rfl
                  rw [this]
                  omega
              · exact Or.inr hex
            · exact ih rs c hc
    · exact Or.inl hc

/-- C1: with a legitimate sample oracle, every combination returned by
`generate_lotto_numbers` (count at least 1, duplicate-free in-range fixed
numbers of size at most 6, in-range excluded numbers) is a strictly
ascending sequence of exactly 6 numbers, each in [1,45]. -/
theorem generate_combinations_sorted_distinct_inRange
    (count : Int) (oe nr : Bool) (fixed excl : List Nat) (draws : Nat → List Nat)
    (hcount : 1 ≤ count) (hnd : fixed.Nodup)
    (hfr : ∀ x ∈ fixed, 1 ≤ x ∧ x ≤ 45) (hflen : fixed.length ≤ 6)
    (her : ∀ x ∈ excl, 1 ≤ x ∧ x ≤ 45)
    (hdraws : DrawsOk fixed excl draws)
    (c : List Nat) (hc : c ∈ generate_lotto_numbers count oe nr fixed excl draws) :
    c.length = 6 ∧ List.Sorted (· < ·) c ∧ ∀ x ∈ c, 1 ≤ x ∧ x ≤ 45 := by
  rcases mem_genLoopFull count oe nr fixed excl draws 10000 [] c hc with
    h | ⟨t, hf6, hpool, hceq⟩
  · simp at h
  · rcases hdraws t with ⟨hdnd, hdlen, hdsub⟩
    rcases combo_props fixed excl (draws t) hnd hdnd hdsub with ⟨hsort, hlen, hmem⟩
    subst hceq
    refine ⟨?_, hsort, ?_⟩
    · rw [hlen, hdlen]; omega
    · intro x hx
      rcases (hmem x).mp hx with hxf | hxd
      · exact hfr x hxf
      · exact (candidatesPool_subset fixed excl x (hdsub x hxd)).1

/-- Witness for C1 on a run that accepts its first candidate. -/
theorem generate_combinations_sorted_distinct_inRange_witness :
    [5, 10, 15, 20, 25, 30] ∈
      generate_lotto_numbers 1 false false [] [] (fun _ => [5, 10, 15, 20, 25, 30]) ∧
    ([5, 10, 15, 20, 25, 30] : List Nat).length = 6 ∧
      List.Sorted (· < ·) [5, 10, 15, 20, 25, 30] ∧
      ∀ x ∈ ([5, 10, 15, 20, 25, 30] : List Nat), 1 ≤ x ∧ x ≤ 45 :=
  ⟨by decide, generate_combinations_sorted_distinct_inRange 1 false false [] []
    (fun _ => [5, 10, 15, 20, 25, 30]) (by decide) (by decide) (by decide)
    (by decide) (by decide) (fun t => by beta_reduce; decide) [5, 10, 15, 20, 25, 30] (by decide)⟩

/-- C2 counterexample: when a number is both fixed and excluded (the claim
allows the overlap), it appears in a returned combination, even though the
oracle is a legitimate sample oracle. -/
theorem excluded_member_appears_cex :
    DrawsOk [1] [1] (fun _ => [2, 3, 4, 5, 6]) ∧
    (1 : Nat) ∈ ([1] : List Nat) ∧
    [1, 2, 3, 4, 5, 6] ∈
      generate_lotto_numbers 1 false false [1] [1] (fun _ => [2, 3, 4, 5, 6]) ∧
    (1 : Nat) ∈ ([1, 2, 3, 4, 5, 6] : List Nat) :=
  ⟨fun t => by beta_reduce; decide, by decide, by decide, by decide⟩

/-- C2 amended: no member of the excluded numbers that is not also fixed
appears in any returned combination. -/
theorem generate_respects_excluded_outside_fixed
    (count : Int) (oe nr : Bool) (fixed excl : List Nat) (draws : Nat → List Nat)
    (hdraws : DrawsOk fixed excl draws)
    (c : List Nat) (hc : c ∈ generate_lotto_numbers count oe nr fixed excl draws)
    (x : Nat) (hx : x ∈ c) (hxf : x ∉ fixed) : x ∉ excl := by
  rcases mem_genLoopFull count oe nr fixed excl draws 10000 [] c hc with
    h | ⟨t, _, _, hceq⟩
  · simp at h
  · subst hceq
    rcases hdraws t with ⟨hdnd, hdlen, hdsub⟩
    have hperm := List.perm_insertionSort (· ≤ ·) (fixed ++ draws t)
    rcases List.mem_append.mp (hperm.mem_iff.mp hx) with h | h
    · exact absurd h hxf
    · exact (candidatesPool_subset fixed excl x (hdsub x h)).2.1

/-- Witness for the amended C2 on a run with overlapping fixed and excluded
numbers. -/
theorem generate_respects_excluded_outside_fixed_witness :
    [7, 10, 20, 30, 40, 44] ∈
      generate_lotto_numbers 1 false false [7] [7] (fun _ => [10, 20, 30, 40, 44]) ∧
    (10 : Nat) ∉ ([7] : List Nat) :=
  ⟨by decide, generate_respects_excluded_outside_fixed 1 false false [7] [7]
    (fun _ => [10, 20, 30, 40, 44]) (fun t => by beta_reduce; decide) [7, 10, 20, 30, 40, 44]
    (by decide) 10 (by decide) (by decide)⟩

/-- C4: every fixed number appears in every returned combination. -/
theorem generate_contains_fixed
    (count : Int) (oe nr : Bool) (fixed excl : List Nat) (draws : Nat → List Nat)
    (hflen : fixed.length ≤ 6)
    (c : List Nat) (hc : c ∈ generate_lotto_numbers count oe nr fixed excl draws)
    (x : Nat) (hx : x ∈ fixed) : x ∈ c := by
  rcases mem_genLoopFull count oe nr fixed excl draws 10000 [] c hc with
    h | ⟨t, _, _, hceq⟩
  · simp at h
  · subst hceq
    have hperm := List.perm_insertionSort (· ≤ ·) (fixed ++ draws t)
    exact hperm.mem_iff.mpr (List.mem_append.mpr (Or.inl hx))

/-- Witness for C4: the fixed number 7 is in the returned combination. -/
theorem generate_contains_fixed_witness :
    [1, 2, 3, 4, 5, 7] ∈
      generate_lotto_numbers 1 false false [7] [] (fun _ => [1, 2, 3, 4, 5]) ∧
    (7 : Nat) ∈ ([1, 2, 3, 4, 5, 7] : List Nat) :=
  ⟨by decide, generate_contains_fixed 1 false false [7] []
    (fun _ => [1, 2, 3, 4, 5]) (by decide) [1, 2, 3, 4, 5, 7] (by decide) 7 (by decide)⟩

theorem length_genLoopFull (count : Int) (oe nr : Bool) (fixed excl : List Nat)
    (draws : Nat → List Nat) :
    ∀ (fuel : Nat) (rs : List (List Nat)), (rs.length : Int) ≤ count →
      (((genLoopFull count oe nr fixed excl draws fuel rs).1.length : Int) ≤ count) := by
  intro fuel
  induction fuel with
  | zero => intro rs h; exact h
  | succ t ih =>
    intro rs h
    simp only [genLoopFull]
    split
    · split
      · exact h
      · split
        · exact ih rs h
        · split
          · exact ih rs h
          · split
            · rename_i h1 h2 h3 h4 h5
              apply ih
              simp only [List.length_append, List.length_cons, List.length_nil]
              push_cast
              omega
            · exact ih rs h
    · exact h

/-- C5: the generator always terminates within the 10,000-attempt budget and
returns a result set of length between 0 and the requested count. -/
theorem generate_terminates_within_budget
    (count : Int) (oe nr : Bool) (fixed excl : List Nat) (draws : Nat → List Nat)
    (hcount : 1 ≤ count) :
    ((generate_lotto_numbers count oe nr fixed excl draws).length : Int) ≤ count ∧
    generateAttempts count oe nr fixed excl draws ≤ 10000 := by
  constructor
  · apply length_genLoopFull
    simp
    omega
  · exact Nat.sub_le _ _

/-- Witness for C5 at a concrete call. -/
theorem generate_terminates_within_budget_witness :
    ((generate_lotto_numbers 2 true true [] [] (fun _ => [1, 2, 3, 4, 5, 6])).length : Int) ≤ 2 ∧
    generateAttempts 2 true true [] [] (fun _ => [1, 2, 3, 4, 5, 6]) ≤ 10000 :=
  generate_terminates_within_budget 2 true true [] [] (fun _ => [1, 2, 3, 4, 5, 6]) (by decide)

/-- C6 counterexample: with 7 fixed numbers the result is empty, but the
guard sits inside the loop after the budget decrement, so one attempt of the
budget is consumed, refuting the claim that none is. -/
theorem guard_consumes_attempt_cex :
    generate_lotto_numbers 1 false false [1, 2, 3, 4, 5, 6, 7] [] (fun _ => []) = [] ∧
    generateAttempts 1 false false [1, 2, 3, 4, 5, 6, 7] [] (fun _ => []) ≠ 0 :=
  ⟨by decide, by decide⟩

theorem genLoopFull_break (count : Int) (oe nr : Bool) (fixed excl : List Nat)
    (draws : Nat → List Nat) (t : Nat) (rs : List (List Nat))
    (h1 : (rs.length : Int) < count) (h2 : 6 < fixed.length) :
    genLoopFull count oe nr fixed excl draws (t + 1) rs = (rs, t) := by
  simp only [genLoopFull]
  rw [if_pos h1, if_pos h2]

theorem genLoopFull_exit (count : Int) (oe nr : Bool) (fixed excl : List Nat)
    (draws : Nat → List Nat) (t : Nat) (rs : List (List Nat))
    (h1 : ¬ ((rs.length : Int) < count)) :
    genLoopFull count oe nr fixed excl draws (t + 1) rs = (rs, t + 1) := by
  simp only [genLoopFull]
  rw [if_neg h1]

/-- C6 amended: if more than 6 numbers are fixed and at least one combination
is requested, the generator returns an empty result set without drawing any
candidate, consuming exactly one unit of the attempt budget (the guard is
evaluated inside the loop, after the decrement). -/
theorem guard_overflow_one_attempt
    (count : Int) (oe nr : Bool) (fixed excl : List Nat) (draws : Nat → List Nat)
    (hflen : 6 < fixed.length) (hcount : 1 ≤ count) :
    generate_lotto_numbers count oe nr fixed excl draws = [] ∧
    generateAttempts count oe nr fixed excl draws = 1 := by
  have hc0 : ((List.length ([] : List (List Nat)) : Int) < count) := by simp; omega
  have hstep : genLoopFull count oe nr fixed excl draws 10000 [] = ([], 9999) :=
    genLoopFull_break count oe nr fixed excl draws 9999 [] hc0 hflen
  constructor
  · show (genLoopFull count oe nr fixed excl draws 10000 []).1 = []
    rw [hstep]
  · show 10000 - (genLoopFull count oe nr fixed excl draws 10000 []).2 = 1
    rw [hstep]
    rfl

/-- Witness for the amended C6. -/
theorem guard_overflow_one_attempt_witness :
    generate_lotto_numbers 3 true true [2, 4, 6, 8, 10, 12, 14] [] (fun _ => []) = [] ∧
    generateAttempts 3 true true [2, 4, 6, 8, 10, 12, 14] [] (fun _ => []) = 1 :=
  guard_overflow_one_attempt 3 true true [2, 4, 6, 8, 10, 12, 14] [] (fun _ => [])
    (by decide) (by decide)

theorem insufficientPool_genLoop (count : Int) (oe nr : Bool) (fixed excl : List Nat)
    (draws : Nat → List Nat) (hflen : fixed.length ≤ 6)
    (hpool : (candidatesPool fixed excl).length < 6 - fixed.length) :
    ∀ (fuel : Nat) (rs : List (List Nat)), (rs.length : Int) < count →
      genLoopFull count oe nr fixed excl draws fuel rs = (rs, 0) := by
  intro fuel
  induction fuel with
  | zero => intro rs _; rfl
  | succ t ih =>
    intro rs hlt
    simp only [genLoopFull]
    split
    · split
      · rename_i h2; omega
      · split
        · rename_i h3
          have h3' : (6 : Int) - (fixed.length : Int) < 0 := h3
          omega
        · split
          · exact ih rs hlt
          · rename_i h4
            have h4' : ¬ (((candidatesPool fixed excl).length : Int) <
                6 - (fixed.length : Int)) := h4
            omega
    · rename_i h1; exact absurd hlt h1

/-- C8: when the candidate pool is smaller than the number of members still
to be drawn, every attempt is skipped as unproductive: the whole budget is
consumed and the generator returns an empty result set. -/
theorem insufficient_pool_returns_empty
    (count : Int) (oe nr : Bool) (fixed excl : List Nat) (draws : Nat → List Nat)
    (hcount : 1 ≤ count) (hflen : fixed.length ≤ 6)
    (hpool : (candidatesPool fixed excl).length < 6 - fixed.length) :
    generate_lotto_numbers count oe nr fixed excl draws = [] ∧
    generateAttempts count oe nr fixed excl draws = 10000 := by
  have h0 : ((List.length ([] : List (List Nat)) : Int) < count) := by simp; omega
  have hloop := insufficientPool_genLoop count oe nr fixed excl draws hflen hpool
    10000 [] h0
  constructor
  · show (genLoopFull count oe nr fixed excl draws 10000 []).1 = []
    rw [hloop]
  · show 10000 - (genLoopFull count oe nr fixed excl draws 10000 []).2 = 10000
    rw [hloop]
    rfl

/-- Witness for C8: 40 excluded numbers leave a pool of only 5 eligible
numbers, fewer than the 6 that must be drawn. -/
theorem insufficient_pool_returns_empty_witness :
    generate_lotto_numbers 2 false false [] (List.range' 6 40) (fun _ => []) = [] ∧
    generateAttempts 2 false false [] (List.range' 6 40) (fun _ => []) = 10000 :=
  insufficient_pool_returns_empty 2 false false [] (List.range' 6 40) (fun _ => [])
    (by decide) (by decide) (by decide)

/-- C10: for every non-positive count the loop condition fails at once: the
generator returns an empty result set and consumes no attempt at all. -/
theorem nonpositive_count_returns_empty
    (count : Int) (oe nr : Bool) (fixed excl : List Nat) (draws : Nat → List Nat)
    (hcount : count ≤ 0) :
    generate_lotto_numbers count oe nr fixed excl draws = [] ∧
    generateAttempts count oe nr fixed excl draws = 0 := by
  have h1 : ¬ ((List.length ([] : List (List Nat)) : Int) < count) := by simp; omega
  have hstep : genLoopFull count oe nr fixed excl draws 10000 [] = ([], 10000) :=
    genLoopFull_exit count oe nr fixed excl draws 9999 [] h1
  constructor
  · show (genLoopFull count oe nr fixed excl draws 10000 []).1 = []
    rw [hstep]
  · show 10000 - (genLoopFull count oe nr fixed excl draws 10000 []).2 = 0
    rw [hstep]
    rfl

/-- Witness for C10 at a negative count. -/
theorem nonpositive_count_returns_empty_witness :
    generate_lotto_numbers (-1) true false [3] [4] (fun _ => [9]) = [] ∧
    generateAttempts (-1) true false [3] [4] (fun _ => [9]) = 0 :=
  nonpositive_count_returns_empty (-1) true false [3] [4] (fun _ => [9]) (by decide)

theorem sortedEqOfSameSet (a b : List Nat) (ha : List.Sorted (· < ·) a)
    (hb : List.Sorted (· < ·) b) (hs : sameSet a b) : a = b := by
  have hna : a.Nodup := ha.nodup
  have hnb : b.Nodup := hb.nodup
  have hperm : a.Perm b := by
    refine List.perm_of_nodup_nodup_toFinset_eq hna hnb ?_
    ext x
    simp only [List.mem_toFinset]
    exact hs x
  exact List.eq_of_perm_of_sorted hperm ha.le_of_lt hb.le_of_lt

theorem resultInv_genLoopFull (count : Int) (oe nr : Bool) (fixed excl : List Nat)
    (draws : Nat → List Nat) (hnd : fixed.Nodup) (hdraws : DrawsOk fixed excl draws) :
    ∀ (fuel : Nat) (rs : List (List Nat)), resultInv count rs →
      resultInv count (genLoopFull count oe nr fixed excl draws fuel rs).1 := by
  intro fuel
  induction fuel with
  | zero => intro rs h; exact h
  | succ t ih =>
    intro rs h
    simp only [genLoopFull]
    split
    · split
      · exact h
      · split
        · exact ih rs h
        · split
          · exact ih rs h
          · split
            · rename_i h1 h2 h3 h4 h5
              apply ih
              rcases h with ⟨hsorted, hpair, hlen⟩
              rcases hdraws t with ⟨hdnd, hdlen, hdsub⟩
              rcases combo_props fixed excl (draws t) hnd hdnd hdsub with
                ⟨hsort, _, hmem⟩
              have hnotin : List.insertionSort (· ≤ ·) (fixed ++ draws t) ∉ rs := by
                rw [Bool.and_eq_true] at h5
                simpa using h5.2
              refine ⟨?_, ?_, ?_⟩
              · intro a ha
                rcases List.mem_append.mp ha with ha | ha
                · exact hsorted a ha
                · rw [List.mem_singleton.mp ha]
                  exact hsort
              · rw [List.pairwise_append]
                refine ⟨hpair, by simp, ?_⟩
                intro a ha b hb hsame
                rw [List.mem_singleton.mp hb] at hsame
                have heq : a = List.insertionSort (· ≤ ·) (fixed ++ draws t) :=
                  sortedEqOfSameSet a _ (hsorted a ha) hsort hsame
                exact hnotin (heq ▸ ha)
              · simp only [List.length_append, List.length_cons, List.length_nil]
                push_cast
                omega
            · exact ih rs h
    · exact h

/-- C7: at every point of a run (the invariant is preserved by the loop from
any state satisfying it) and in the final returned value, the accumulated
result set holds no two combinations identical as sets and never exceeds the
requested count in length. -/
theorem resultInv_preserved_and_final
    (count : Int) (oe nr : Bool) (fixed excl : List Nat) (draws : Nat → List Nat)
    (hcount : 1 ≤ count) (hnd : fixed.Nodup) (hdraws : DrawsOk fixed excl draws) :
    (∀ (fuel : Nat) (rs : List (List Nat)), resultInv count rs →
      resultInv count (genLoopFull count oe nr fixed excl draws fuel rs).1) ∧
    resultInv count (generate_lotto_numbers count oe nr fixed excl draws) := by
  have hpres := resultInv_genLoopFull count oe nr fixed excl draws hnd hdraws
  refine ⟨hpres, hpres 10000 [] ?_⟩
  refine ⟨by simp, by simp, ?_⟩
  simp only [List.length_nil]
  push_cast
  omega

/-- Witness for C7 at a concrete call. -/
theorem resultInv_preserved_and_final_witness :
    (∀ (fuel : Nat) (rs : List (List Nat)), resultInv 1 rs →
      resultInv 1 (genLoopFull 1 false false [] []
        (fun _ => [2, 9, 17, 25, 33, 41]) fuel rs).1) ∧
    resultInv 1 (generate_lotto_numbers 1 false false [] []
      (fun _ => [2, 9, 17, 25, 33, 41])) :=
  resultInv_preserved_and_final 1 false false [] [] (fun _ => [2, 9, 17, 25, 33, 41])
    (by decide) (by decide) (fun t => by beta_reduce; decide)
